import Mathlib

/-!
Shallow embedding of `src/vnpay.ts` (the `VNPay` class of the `vnpay`
package): field-map canonicalization, signing-string construction,
payment-URL building (`buildPaymentUrl`), return-URL/IPN verification
(`verifyReturnUrl`, `verifyIpnCall`), and the response-verification parts
of the `queryDr` and `refund` protocols.

JavaScript runtime primitives that the source calls directly
(`localeCompare`, `URLSearchParams` percent-encoding, `Number(...)`
coercion, template interpolation) are embedded as executable Lean
functions.  Collaborator functions that live outside `src/` (the HMAC
`hash` from `utils/common`, the message table `getResponseByStatusCode`)
are taken as function parameters, so every theorem is quantified over
them.  HTTP transport (`fetch`) is out of scope per the spec; for
`queryDr` and `refund` only the response-handling portion (from the
parsed JSON response onward) is embedded.
-/

namespace Vnpay

/-- A JavaScript primitive value as it appears in the field maps of
`vnpay.ts`: a string, a number, `undefined`, `null`, or `NaN` (which
arises from arithmetic on non-numbers).  A number is modelled as the
exact decimal `n / 10 ^ pow10`, which represents every value the gateway
protocol handles (integer amounts, their `* 100` / `/ 100` scalings,
response codes) exactly. -/
inductive JVal where
  | jstr (s : String)
  | jnum (n : Int) (pow10 : Nat)
  | jundef
  | jnull
  | jnan
deriving DecidableEq, Repr

/-- Decimal digits of a natural number, most significant first; `fuel`
bounds the recursion depth (any `fuel > n` is enough). -/
def natDigitsAux : Nat → Nat → List Char
  | 0, _ => []
  | fuel + 1, n =>
    if n < 10 then [Char.ofNat (48 + n)]
    else natDigitsAux fuel (n / 10) ++ [Char.ofNat (48 + n % 10)]

/-- JS `Number.prototype.toString` on a non-negative integer. -/
def natDigits (n : Nat) : String := ⟨natDigitsAux (n + 1) n⟩

def intToString (i : Int) : String :=
  if i < 0 then "-" ++ natDigits i.natAbs else natDigits i.natAbs

/-- Strip trailing zero decimal digits: canonical `(n, k)` with the same
value `n / 10 ^ k` (JS prints `1.50` as `1.5`, `150 / 100` as `1.5`). -/
def jnumCanon : Int → Nat → Int × Nat
  | n, 0 => (n, 0)
  | n, k + 1 => if n % 10 = 0 then jnumCanon (n / 10) k else (n, k + 1)

def padZeros (cs : List Char) (m : Nat) : List Char :=
  List.replicate (m - cs.length) '0' ++ cs

/-- Rendering of the JS number `n / 10 ^ k` (decimal digits, `-` sign,
`.` before the fractional digits when any remain after stripping
trailing zeros). -/
def jnumToStr (n : Int) (k : Nat) : String :=
  let c := jnumCanon n k
  if c.2 = 0 then intToString c.1
  else
    let ds := padZeros (natDigitsAux (c.1.natAbs + 1) c.1.natAbs) (c.2 + 1)
    (if c.1 < 0 then "-" else "") ++
      ⟨ds.take (ds.length - c.2)⟩ ++ "." ++ ⟨ds.drop (ds.length - c.2)⟩

/-- JS `value.toString()` / string interpolation of a primitive. -/
def JVal.toStr : JVal → String
  | .jstr s => s
  | .jnum n k => jnumToStr n k
  | .jundef => "undefined"
  | .jnull => "null"
  | .jnan => "NaN"

/-- JS truthiness of a primitive (`!value` is the negation). -/
def JVal.truthy : JVal → Bool
  | .jstr s => s != ""
  | .jnum n _ => n != 0
  | .jundef => false
  | .jnull => false
  | .jnan => false

/-- Split a char list at every occurrence of `sep`. -/
def splitOnCharList (sep : Char) : List Char → List (List Char)
  | [] => [[]]
  | c :: rest =>
    if c = sep then [] :: splitOnCharList sep rest
    else
      match splitOnCharList sep rest with
      | h :: t => (c :: h) :: t
      | [] => [[c]]

/-- Split a char list at the first occurrence of `sep`; when `sep` is
absent the whole input is the first component. -/
def splitFirst (sep : Char) : List Char → List Char × List Char
  | [] => ([], [])
  | c :: rest =>
    if c = sep then ([], rest)
    else (c :: (splitFirst sep rest).1, (splitFirst sep rest).2)

/-- Join char-list segments with a separator char. -/
def listIntercalate (sep : Char) : List (List Char) → List Char
  | [] => []
  | [x] => x
  | x :: y :: xs => x ++ sep :: listIntercalate sep (y :: xs)

def digitsToNat (cs : List Char) : Nat :=
  cs.foldl (fun a c => 10 * a + (c.toNat - 48)) 0

/-- Parse an unsigned decimal literal (optional fractional part) into the
exact decimal `(n, pow10)` with value `n / 10 ^ pow10`. -/
def parseUnsignedNumber (cs : List Char) : Option (Int × Nat) :=
  let ip := (splitFirst '.' cs).1
  let fp := (splitFirst '.' cs).2
  if ip.all Char.isDigit && fp.all Char.isDigit && (!ip.isEmpty || !fp.isEmpty) then
    some ((digitsToNat ip * 10 ^ fp.length + digitsToNat fp : Int), fp.length)
  else none

/-- Model of JS `Number(string)` on the decimal forms the gateway uses
(optionally signed decimal literals; empty string is `0`); other strings
are `NaN`, encoded as `none`.  (Hex/exponent literals and whitespace
trimming, which never occur in gateway response codes, are out of the
model and also map to `none`.) -/
def jsStrToNumber (s : String) : Option (Int × Nat) :=
  match s.data with
  | [] => some (0, 0)
  | '-' :: rest => (parseUnsignedNumber rest).map (fun p => (-p.1, p.2))
  | '+' :: rest => parseUnsignedNumber rest
  | cs => parseUnsignedNumber cs

/-! ## Field maps

A JS object of `vnp_` fields is embedded as an association list in
property-insertion order.  `setKey` is JS property assignment (overwrite
in place or append), `removeKey` is the `delete` operator, `getKeyD` is
property read (absent reads give `undefined`). -/

abbrev FieldMap := List (String × JVal)

def getKey : FieldMap → String → Option JVal
  | [], _ => none
  | p :: t, k => if p.1 = k then some p.2 else getKey t k

def getKeyD (m : FieldMap) (k : String) : JVal :=
  (getKey m k).getD .jundef

def setKey : FieldMap → String → JVal → FieldMap
  | [], k, v => [(k, v)]
  | p :: t, k, v => if p.1 = k then (k, v) :: t else p :: setKey t k v

def removeKey (m : FieldMap) (k : String) : FieldMap :=
  m.filter (fun p => p.1 != k)

def keysOf (m : FieldMap) : List String := m.map Prod.fst

/-- JS object spread `{...base, ...extra}`. -/
def mergeFields (base extra : FieldMap) : FieldMap :=
  extra.foldl (fun m p => setKey m p.1 p.2) base

/-! ## Collation: `String.prototype.localeCompare`

The source sorts field names with
`key1.toString().localeCompare(key2.toString())`.  Modelled as the
Unicode default collation restricted to the character classes appearing
in gateway field names: a primary pass that ignores letter case
(underscore before digits before letters), then a tertiary pass where
lowercase precedes uppercase.  Characters outside these classes are
mapped injectively above all of them, so the comparison is a total order
on strings. -/

def collPrim (c : Char) : Nat :=
  let n := c.toNat
  if n = 95 then 1
  else if 48 ≤ n ∧ n ≤ 57 then 256 + n
  else if 65 ≤ n ∧ n ≤ 90 then 512 + (n - 65)
  else if 97 ≤ n ∧ n ≤ 122 then 512 + (n - 97)
  else 65536 + n

def collTert (c : Char) : Nat :=
  let n := c.toNat
  if 65 ≤ n ∧ n ≤ 90 then 1 else 0

/-- Collation key: full primary-weight sequence, then a separator smaller
than every primary weight, then the tertiary weights. -/
def collationKey (s : String) : List Nat :=
  s.data.map collPrim ++ 0 :: s.data.map collTert

def localeCompare (a b : String) : Int :=
  if collationKey a < collationKey b then -1
  else if collationKey b < collationKey a then 1
  else 0

/-- The comparator the source passes to `Array.prototype.sort`:
entry `p` may precede entry `q` when `localeCompare` does not order the
keys the other way. -/
def keyLe (p q : String × JVal) : Prop := localeCompare p.1 q.1 ≤ 0

instance : DecidableRel keyLe := fun p q =>
  inferInstanceAs (Decidable (localeCompare p.1 q.1 ≤ 0))

/-- `Array.prototype.sort` with the `localeCompare` comparator.  The
comparator is a total preorder whose ties are exactly equal keys, so
every comparison sort returns this list; insertion sort is the chosen
executable representative. -/
def sortPairs (m : FieldMap) : FieldMap := List.insertionSort keyLe m

/-! ## `URLSearchParams` percent-encoding (application/x-www-form-urlencoded) -/

/-- UTF-8 bytes of a code point. -/
def utf8Bytes (n : Nat) : List Nat :=
  if n < 0x80 then [n]
  else if n < 0x800 then [0xC0 + n / 0x40, 0x80 + n % 0x40]
  else if n < 0x10000 then [0xE0 + n / 0x1000, 0x80 + n / 0x40 % 0x40, 0x80 + n % 0x40]
  else [0xF0 + n / 0x40000, 0x80 + n / 0x1000 % 0x40, 0x80 + n / 0x40 % 0x40, 0x80 + n % 0x40]

def hexDigitChar (n : Nat) : Char :=
  if n < 10 then Char.ofNat (48 + n) else Char.ofNat (55 + n)

def hexVal (c : Char) : Nat :=
  let n := c.toNat
  if 48 ≤ n ∧ n ≤ 57 then n - 48
  else if 65 ≤ n ∧ n ≤ 70 then n - 55
  else if 97 ≤ n ∧ n ≤ 102 then n - 87
  else 0

def byteEscape (b : Nat) : List Char :=
  ['%', hexDigitChar (b / 16), hexDigitChar (b % 16)]

/-- The characters `URLSearchParams` serialization leaves unescaped:
ASCII alphanumerics and `*`, `-`, `.`, `_`. -/
def isUnreservedChar (c : Char) : Bool :=
  let n := c.toNat
  (48 ≤ n && n ≤ 57) || (65 ≤ n && n ≤ 90) || (97 ≤ n && n ≤ 122) ||
    n == 42 || n == 45 || n == 46 || n == 95

def encodeChar (c : Char) : List Char :=
  if isUnreservedChar c then [c]
  else if c = ' ' then ['+']
  else (utf8Bytes c.toNat).flatMap byteEscape

def urlEncChars (s : String) : List Char := s.data.flatMap encodeChar

/-- One serialized `key=value` segment of a `URLSearchParams` query. -/
def encSeg (p : String × JVal) : List Char :=
  urlEncChars p.1 ++ '=' :: urlEncChars p.2.toStr

/-! ## Percent-decoding (what a web framework does to the query string
before handing the field map to `verifyReturnUrl`).  Modelled from the
spec: `parseQuery` is not part of the repository; it is standard
x-www-form-urlencoded parsing. -/

def pdBytes : List Char → List Nat
  | [] => []
  | c :: rest =>
    if c = '%' then
      match rest with
      | h :: l :: r => (16 * hexVal h + hexVal l) :: pdBytes r
      | _ => []
    else if c = '+' then 0x20 :: pdBytes rest
    else utf8Bytes c.toNat ++ pdBytes rest

/-- UTF-8 decoding as a byte-at-a-time state machine: `need` counts the
continuation bytes still expected for the code point accumulated in
`acc` (0 means the next byte is a starter byte). -/
def utf8DecodeSt : Nat → Nat → List Nat → List Char
  | _, _, [] => []
  | need, acc, b :: rest =>
    if need = 0 then
      if b < 0x80 then Char.ofNat b :: utf8DecodeSt 0 0 rest
      else if b < 0xE0 then utf8DecodeSt 1 (b - 0xC0) rest
      else if b < 0xF0 then utf8DecodeSt 2 (b - 0xE0) rest
      else utf8DecodeSt 3 (b - 0xF0) rest
    else if need = 1 then Char.ofNat (acc * 0x40 + (b - 0x80)) :: utf8DecodeSt 0 0 rest
    else utf8DecodeSt (need - 1) (acc * 0x40 + (b - 0x80)) rest

def utf8Decode (l : List Nat) : List Char := utf8DecodeSt 0 0 l

def percentDecodeChars (cs : List Char) : String := ⟨utf8Decode (pdBytes cs)⟩

/-- Modelled from the spec: parse the query string of a URL back into a
field map (split at the last `?`, split pairs at `&`, keys from values at
the first `=`, percent-decode both).  Every value parses as a string. -/
def parseQuery (url : String) : FieldMap :=
  let qs := ((splitOnCharList '?' url.data).getLastD [])
  (splitOnCharList '&' qs).map fun seg =>
    (percentDecodeChars (splitFirst '=' seg).1, JVal.jstr (percentDecodeChars (splitFirst '=' seg).2))

/-! ## Configuration -/

/-- The `GlobalConfig` of the `VNPay` instance after the constructor ran
(every defaultable field resolved except `paymentEndpoint`, which the
source reads with a `??` fallback). -/
structure GlobalConfig where
  vnpayHost : String
  paymentEndpoint : Option String
  tmnCode : String
  secureSecret : String
  vnp_Version : String
  vnp_CurrCode : String
  vnp_Locale : String
  vnp_Command : String
  vnp_OrderType : String
deriving Repr

/-- Modelled from the spec: `PAYMENT_ENDPOINT` lives in `constants.ts`,
which is not under `src/`; §1 of the spec gives the path. -/
def PAYMENT_ENDPOINT : String := "paymentv2/vpcpay.html"

/-- Modelled from the spec: `resolveUrlString` lives in `utils/common`,
which is not under `src/`; per §2/§6 it joins the configured host and an
endpoint path into one absolute URL string. -/
def resolveUrlString (host path : String) : String := host ++ "/" ++ path

/-- The `defaultConfig` getter: the six default `vnp_` fields. -/
def defaultConfigFields (cfg : GlobalConfig) : FieldMap :=
  [("vnp_TmnCode", .jstr cfg.tmnCode),
   ("vnp_Version", .jstr cfg.vnp_Version),
   ("vnp_CurrCode", .jstr cfg.vnp_CurrCode),
   ("vnp_Locale", .jstr cfg.vnp_Locale),
   ("vnp_Command", .jstr cfg.vnp_Command),
   ("vnp_OrderType", .jstr cfg.vnp_OrderType)]

/-! ## buildPaymentUrl -/

/-- Multiply the exact decimal `n / 10 ^ k` by 100. -/
def decMul100 (n : Int) (k : Nat) : Int × Nat :=
  if k ≥ 2 then (n, k - 2) else (n * 10 ^ (2 - k), 0)

/-- JS `value * 100` (with `Number` coercion: `null` is 0, `undefined`
and non-numeric strings are `NaN`). -/
def jsMul100 : JVal → JVal
  | .jnum n k => .jnum (decMul100 n k).1 (decMul100 n k).2
  | .jstr s =>
    match jsStrToNumber s with
    | some p => .jnum (decMul100 p.1 p.2).1 (decMul100 p.1 p.2).2
    | none => .jnan
  | .jnull => .jnum 0 0
  | .jundef => .jnan
  | .jnan => .jnan

/-- JS `value / 100` under the same coercion (exact: dividing
`n / 10 ^ k` by 100 gives `n / 10 ^ (k + 2)`). -/
def jsDiv100 : JVal → JVal
  | .jnum n k => .jnum n (k + 2)
  | .jstr s =>
    match jsStrToNumber s with
    | some p => .jnum p.1 (p.2 + 2)
    | none => .jnan
  | .jnull => .jnum 0 0
  | .jundef => .jnan
  | .jnan => .jnan

/-- JS `x ?? 0`. -/
def coalesceZero : JVal → JVal
  | .jundef => .jnum 0 0
  | .jnull => .jnum 0 0
  | v => v

/-- The skip test of `buildPaymentUrl`'s serialization loop:
`!value || value === '' || value === undefined || value === null`
keeps exactly the truthy values. -/
def buildKeep (v : JVal) : Bool := v.truthy

/-- The skip test of `verifyReturnUrl`'s serialization loop:
`value === '' || value === undefined || value === null`
(note: keeps the number 0, unlike `buildKeep`). -/
def verifyKeep (v : JVal) : Bool :=
  !(v == .jstr "" || v == .jundef || v == .jnull)

/-- `dataToBuild` after the merge with `defaultConfig`, the `* 100`
amount scaling and the create-date defaulting.  `validDate` stands for
`isValidVnpayDateFormat` (from `utils/common`, not under `src/`) and
`now` for the formatted current GMT+7 time. -/
def buildDataToBuild (validDate : JVal → Bool) (now : String)
    (cfg : GlobalConfig) (data : FieldMap) : FieldMap :=
  let d0 := mergeFields (defaultConfigFields cfg) data
  let d1 := setKey d0 "vnp_Amount" (jsMul100 (getKeyD d0 "vnp_Amount"))
  if validDate (coalesceZero (getKeyD d1 "vnp_CreateDate")) then d1
  else setKey d1 "vnp_CreateDate" (.jstr now)

def buildSortedPairs (validDate : JVal → Bool) (now : String)
    (cfg : GlobalConfig) (data : FieldMap) : FieldMap :=
  sortPairs ((buildDataToBuild validDate now cfg data).filter (fun p => buildKeep p.2))

/-- `redirectUrl.search.slice(1)` at signing time: the serialized sorted
query before the signature is appended. -/
def buildCanonical (validDate : JVal → Bool) (now : String)
    (cfg : GlobalConfig) (data : FieldMap) : String :=
  ⟨listIntercalate '&' ((buildSortedPairs validDate now cfg data).map encSeg)⟩

/-- `buildPaymentUrl`.  `hmac secret payload` stands for
`hash(secret, Buffer.from(payload, 'utf-8'), HASH_ALGORITHM)` from
`utils/common` (not under `src/`). -/
def buildPaymentUrl (hmac : String → String → String) (validDate : JVal → Bool)
    (now : String) (cfg : GlobalConfig) (data : FieldMap) : String :=
  let canonical := buildCanonical validDate now cfg data
  let signed := hmac cfg.secureSecret canonical
  let base := resolveUrlString cfg.vnpayHost (cfg.paymentEndpoint.getD PAYMENT_ENDPOINT)
  base ++ "?" ++
    ⟨listIntercalate '&'
      ((buildSortedPairs validDate now cfg data ++ [("vnp_SecureHash", JVal.jstr signed)]).map encSeg)⟩

/-! ## verifyReturnUrl / verifyIpnCall -/

/-- The query object after the two `delete` statements at the top of
`verifyReturnUrl`. -/
def strippedQuery (q : FieldMap) : FieldMap :=
  removeKey (removeKey q "vnp_SecureHash") "vnp_SecureHashType"

def verifyCanonPairs (q : FieldMap) : FieldMap :=
  sortPairs ((strippedQuery q).filter (fun p => verifyKeep p.2))

/-- `searchParams.toString()` inside `verifyReturnUrl`. -/
def verifyCanonical (q : FieldMap) : String :=
  ⟨listIntercalate '&' ((verifyCanonPairs q).map encSeg)⟩

/-- The signature `verifyReturnUrl` recomputes over the stripped,
re-canonicalized query. -/
def verifyRecomputedSig (hmac : String → String → String)
    (cfg : GlobalConfig) (q : FieldMap) : String :=
  hmac cfg.secureSecret (verifyCanonical q)

/-- JS `query.vnp_ResponseCode?.toString() ?? ''`. -/
def respCodeString : JVal → String
  | .jundef => ""
  | .jnull => ""
  | v => v.toStr

structure VerifyResult where
  isVerified : Bool
  isSuccess : Bool
  message : String
  fields : FieldMap
deriving DecidableEq, Repr

/-- `verifyReturnUrl`.  The JS method mutates its argument (it deletes
the two signature fields and never rethrows); the mutation is embedded
as explicit state passing: the second component is the final state of
the caller's query object.  `lookupMessage` stands for
`getResponseByStatusCode(code, locale)` (not under `src/`).  The
function is total: a failed signature comparison produces a normal
`VerifyResult`, never an exception. -/
def verifyReturnUrl (hmac : String → String → String) (lookupMessage : String → String)
    (cfg : GlobalConfig) (query : FieldMap) : VerifyResult × FieldMap :=
  let secureHash := getKeyD query "vnp_SecureHash"
  let q := strippedQuery query
  let responseCode := getKeyD q "vnp_ResponseCode"
  let signed := verifyRecomputedSig hmac cfg query
  let verified := secureHash == .jstr signed
  ({ isVerified := verified,
     isSuccess := responseCode == .jstr "00",
     message := if verified then lookupMessage (respCodeString responseCode) else "Wrong checksum",
     fields := setKey q "vnp_Amount" (jsDiv100 (getKeyD q "vnp_Amount")) },
   q)

/-- `verifyIpnCall` delegates to `verifyReturnUrl` unchanged. -/
def verifyIpnCall (hmac : String → String → String) (lookupMessage : String → String)
    (cfg : GlobalConfig) (query : FieldMap) : VerifyResult × FieldMap :=
  verifyReturnUrl hmac lookupMessage cfg query

/-! ## queryDr / refund response verification -/

/-- JS template interpolation of a possibly-absent JSON string field:
an absent field renders as the literal text `undefined`.  (The response
type declarations live in `types/`, not under `src/`; every response
field is embedded as an optional string, numeric JSON values standing as
their decimal digit strings.) -/
def interp : Option String → String
  | some s => s
  | none => "undefined"

/-- The guard `Number(code) >= 90 && Number(code) <= 99` (false on
`NaN`, hence on absent or non-numeric codes). -/
def softRange (code : Option String) : Bool :=
  match code with
  | none => false
  | some s =>
    match jsStrToNumber s with
    | none => false
    | some p => decide (90 * 10 ^ p.2 ≤ p.1) && decide (p.1 ≤ 99 * 10 ^ p.2)

structure QueryDrResponse where
  vnp_ResponseId : Option String
  vnp_Command : Option String
  vnp_ResponseCode : Option String
  vnp_Message : Option String
  vnp_TxnRef : Option String
  vnp_Amount : Option String
  vnp_BankCode : Option String
  vnp_PayDate : Option String
  vnp_TransactionNo : Option String
  vnp_TransactionType : Option String
  vnp_TransactionStatus : Option String
  vnp_OrderInfo : Option String
  vnp_PromotionCode : Option String
  vnp_PromotionAmount : Option String
  vnp_SecureHash : Option String
deriving DecidableEq, Repr

/-- The fixed-order 15-field pipe string `stringToCheckSumResponse` of
`queryDr` (terminal id taken from the instance config, not from the
response). -/
def queryDrChecksumString (cfg : GlobalConfig) (r : QueryDrResponse) : String :=
  interp r.vnp_ResponseId ++ "|" ++ interp r.vnp_Command ++ "|" ++ interp r.vnp_ResponseCode ++
    "|" ++ interp r.vnp_Message ++ "|" ++ cfg.tmnCode ++ "|" ++ interp r.vnp_TxnRef ++
    "|" ++ interp r.vnp_Amount ++ "|" ++ interp r.vnp_BankCode ++ "|" ++ interp r.vnp_PayDate ++
    "|" ++ interp r.vnp_TransactionNo ++ "|" ++ interp r.vnp_TransactionType ++
    "|" ++ interp r.vnp_TransactionStatus ++ "|" ++ interp r.vnp_OrderInfo ++
    "|" ++ interp r.vnp_PromotionCode ++ "|" ++ interp r.vnp_PromotionAmount

/-- Left-to-right, non-overlapping removal of every occurrence of the
9-char pattern `undefined`. -/
def scrubChars : List Char → List Char
  | 'u' :: 'n' :: 'd' :: 'e' :: 'f' :: 'i' :: 'n' :: 'e' :: 'd' :: rest => scrubChars rest
  | c :: rest => c :: scrubChars rest
  | [] => []

/-- `.replace(/undefined/g, '')`: every occurrence of the literal
substring is replaced by the empty string. -/
def scrubUndefined (s : String) : String := ⟨scrubChars s.data⟩

/-- Response handling of `queryDr`, from the parsed JSON response
onward.  `lookupQueryDr` stands for
`getResponseByStatusCode(code, locale, QUERY_DR_RESPONSE_MAP)`.
A checksum mismatch is the thrown `Error('Wrong checksum from VNPay
response')`, embedded as `Except.error`. -/
def queryDrHandleResponse (hmac : String → String → String)
    (lookupQueryDr : Option String → String) (cfg : GlobalConfig)
    (r : QueryDrResponse) : Except String QueryDrResponse :=
  if softRange r.vnp_ResponseCode then
    .ok { r with vnp_Message := some (lookupQueryDr r.vnp_ResponseCode) }
  else
    let signed := hmac cfg.secureSecret (scrubUndefined (queryDrChecksumString cfg r))
    if r.vnp_SecureHash != some signed then .error "Wrong checksum from VNPay response"
    else .ok { r with vnp_Message := some (lookupQueryDr r.vnp_ResponseCode) }

structure RefundResponse where
  vnp_ResponseId : Option String
  vnp_ResponseCode : Option String
  vnp_Message : Option String
  vnp_TmnCode : Option String
  vnp_TxnRef : Option String
  vnp_Amount : Option String
  vnp_BankCode : Option String
  vnp_PayDate : Option String
  vnp_TransactionNo : Option String
  vnp_TransactionType : Option String
  vnp_TransactionStatus : Option String
  vnp_OrderInfo : Option String
  vnp_SecureHash : Option String
deriving DecidableEq, Repr

/-- The fixed-order 13-field pipe string `stringToChecksumResponse` of
`refund`: the command slot is the literal `refund`, the terminal id is
taken from the response, and (unlike `queryDr`) the result is signed
without scrubbing the literal text `undefined`. -/
def refundChecksumString (r : RefundResponse) : String :=
  interp r.vnp_ResponseId ++ "|" ++ "refund" ++ "|" ++ interp r.vnp_ResponseCode ++
    "|" ++ interp r.vnp_Message ++ "|" ++ interp r.vnp_TmnCode ++ "|" ++ interp r.vnp_TxnRef ++
    "|" ++ interp r.vnp_Amount ++ "|" ++ interp r.vnp_BankCode ++ "|" ++ interp r.vnp_PayDate ++
    "|" ++ interp r.vnp_TransactionNo ++ "|" ++ interp r.vnp_TransactionType ++
    "|" ++ interp r.vnp_TransactionStatus ++ "|" ++ interp r.vnp_OrderInfo

/-- Response handling of `refund`, from the parsed JSON response onward.
The soft-range branch looks its message up in `QUERY_DR_RESPONSE_MAP`
(`lookupQueryDr`), the verified branch in `REFUND_RESPONSE_MAP`
(`lookupRefund`), exactly as in the source. -/
def refundHandleResponse (hmac : String → String → String)
    (lookupQueryDr lookupRefund : Option String → String) (cfg : GlobalConfig)
    (r : RefundResponse) : Except String RefundResponse :=
  if softRange r.vnp_ResponseCode then
    .ok { r with vnp_Message := some (lookupQueryDr r.vnp_ResponseCode) }
  else
    let signed := hmac cfg.secureSecret (refundChecksumString r)
    if r.vnp_SecureHash != some signed then .error "Wrong checksum from VNPay response"
    else .ok { r with vnp_Message := some (lookupRefund r.vnp_ResponseCode) }

/-! ## Order lemmas for the sort comparator -/

theorem localeCompare_le_zero_iff (a b : String) :
    localeCompare a b ≤ 0 ↔ collationKey a ≤ collationKey b := by
  unfold localeCompare
  rcases lt_trichotomy (collationKey a) (collationKey b) with h | h | h
  · simp [h, le_of_lt h]
  · simp [h, lt_irrefl]
  · have h1 : ¬ collationKey a < collationKey b := not_lt_of_gt h
    have h2 : ¬ collationKey a ≤ collationKey b := not_le_of_gt h
    simp [h1, h, h2]

instance : IsTotal (String × JVal) keyLe :=
  ⟨fun p q => by
    rw [keyLe, keyLe, localeCompare_le_zero_iff, localeCompare_le_zero_iff]
    exact le_total _ _⟩

instance : IsTrans (String × JVal) keyLe :=
  ⟨fun a b c hab hbc => by
    rw [keyLe, localeCompare_le_zero_iff] at hab hbc ⊢
    exact le_trans hab hbc⟩

/-! ## Association-list lemmas -/

theorem getKey_mem {m : FieldMap} {k : String} {v : JVal}
    (h : getKey m k = some v) : (k, v) ∈ m := by
  induction m with
  | nil => simp [getKey] at h
  | cons p t ih =>
    rw [getKey] at h
    by_cases hp : p.1 = k
    · rw [if_pos hp] at h
      cases h
      have hpp : p = (k, p.2) := by
        rw [Prod.ext_iff]
        exact ⟨hp, rfl⟩
      rw [← hpp]
      exact List.mem_cons_self _ _
    · rw [if_neg hp] at h
      exact List.mem_cons_of_mem _ (ih h)

theorem getKey_eq_of_mem_nodup {m : FieldMap} (hnd : (keysOf m).Nodup)
    {k : String} {v w : JVal} (hm : (k, v) ∈ m) (hg : getKey m k = some w) : v = w := by
  induction m with
  | nil => simp at hm
  | cons p t ih =>
    rw [keysOf, List.map_cons, List.nodup_cons] at hnd
    rcases List.mem_cons.mp hm with hm | hm
    · subst hm
      rw [getKey, if_pos rfl] at hg
      exact Option.some.inj hg
    · by_cases hp : p.1 = k
      · exfalso
        have hk : k ∈ List.map Prod.fst t := List.mem_map.mpr ⟨(k, v), hm, rfl⟩
        rw [← hp] at hk
        exact hnd.1 hk
      · rw [getKey, if_neg hp] at hg
        exact ih hnd.2 hm hg

theorem getKey_removeKey_self (m : FieldMap) (k : String) :
    getKey (removeKey m k) k = none := by
  induction m with
  | nil => rfl
  | cons p t ih =>
    rw [removeKey, List.filter_cons]
    by_cases hp : p.1 = k
    · simp only [hp, bne_self_eq_false]
      exact ih
    · have : (p.1 != k) = true := bne_iff_ne.mpr hp
      rw [this]
      simp only [getKey, if_neg hp]
      exact ih

theorem getKey_removeKey_ne {k k' : String} (h : k ≠ k') (m : FieldMap) :
    getKey (removeKey m k') k = getKey m k := by
  induction m with
  | nil => rfl
  | cons p t ih =>
    rw [removeKey, List.filter_cons]
    by_cases hp : p.1 = k'
    · have : (p.1 != k') = false := by simp [hp]
      rw [this]
      have hpk : p.1 ≠ k := by rw [hp]; exact fun hh => h hh.symm
      simp only [getKey, if_neg hpk]
      exact ih
    · have : (p.1 != k') = true := bne_iff_ne.mpr hp
      rw [this]
      simp only [getKey]
      by_cases hq : p.1 = k
      · rw [if_pos hq, if_pos hq]
      · rw [if_neg hq, if_neg hq]
        exact ih

theorem getKey_setKey_self (m : FieldMap) (k : String) (v : JVal) :
    getKey (setKey m k v) k = some v := by
  induction m with
  | nil => simp [setKey, getKey]
  | cons p t ih =>
    rw [setKey]
    by_cases hp : p.1 = k
    · rw [if_pos hp]
      simp [getKey]
    · rw [if_neg hp]
      simp only [getKey, if_neg hp]
      exact ih

theorem getKey_setKey_ne {k k' : String} (h : k ≠ k') (m : FieldMap) (v : JVal) :
    getKey (setKey m k' v) k = getKey m k := by
  induction m with
  | nil =>
    have : k' ≠ k := fun hh => h hh.symm
    simp [setKey, getKey, this]
  | cons p t ih =>
    rw [setKey]
    by_cases hp : p.1 = k'
    · rw [if_pos hp]
      have h1 : k' ≠ k := fun hh => h hh.symm
      have h2 : p.1 ≠ k := by rw [hp]; exact h1
      simp only [getKey, if_neg h1, if_neg h2]
    · rw [if_neg hp]
      simp only [getKey]
      by_cases hq : p.1 = k
      · rw [if_pos hq, if_pos hq]
      · rw [if_neg hq, if_neg hq]
        exact ih

theorem removeKey_setKey_self (m : FieldMap) (k : String) (v : JVal) :
    removeKey (setKey m k v) k = removeKey m k := by
  induction m with
  | nil => simp [setKey, removeKey, List.filter_cons]
  | cons p t ih =>
    by_cases hp : p.1 = k
    · rw [setKey, if_pos hp, removeKey, removeKey]
      simp [List.filter_cons, hp]
    · rw [setKey, if_neg hp, removeKey, removeKey]
      have hb : (p.1 != k) = true := bne_iff_ne.mpr hp
      simp only [List.filter_cons, hb, if_true]
      rw [removeKey, removeKey] at ih
      rw [ih]

theorem removeKey_comm (m : FieldMap) (k k' : String) :
    removeKey (removeKey m k) k' = removeKey (removeKey m k') k := by
  rw [removeKey, removeKey, removeKey, removeKey, List.filter_filter, List.filter_filter]
  congr 1
  funext p
  rw [Bool.and_comm]

theorem removeKey_idem (m : FieldMap) (k : String) :
    removeKey (removeKey m k) k = removeKey m k := by
  rw [removeKey, removeKey, List.filter_filter]
  congr 1
  funext p
  rw [Bool.and_self]

theorem removeKey_eq_self_of_not_mem {m : FieldMap} {k : String}
    (h : k ∉ keysOf m) : removeKey m k = m := by
  rw [removeKey]
  apply List.filter_eq_self.mpr
  intro p hp
  apply bne_iff_ne.mpr
  intro he
  exact h (List.mem_map.mpr ⟨p, hp, he⟩)

theorem mem_keysOf_setKey {m : FieldMap} {k k' : String} {v : JVal}
    (h : k ∈ keysOf (setKey m k' v)) : k ∈ keysOf m ∨ k = k' := by
  induction m with
  | nil =>
    simp [setKey, keysOf] at h
    right
    exact h
  | cons p t ih =>
    rw [setKey] at h
    by_cases hp : p.1 = k'
    · rw [if_pos hp] at h
      rcases List.mem_map.mp h with ⟨q, hq, hfst⟩
      rcases List.mem_cons.mp hq with hq | hq
      · right
        rw [← hfst, hq]
      · left
        exact List.mem_map.mpr ⟨q, List.mem_cons_of_mem _ hq, hfst⟩
    · rw [if_neg hp] at h
      rcases List.mem_map.mp h with ⟨q, hq, hfst⟩
      rcases List.mem_cons.mp hq with hq | hq
      · left
        apply List.mem_map.mpr
        refine ⟨p, List.mem_cons_self _ _, ?_⟩
        rw [← hq]
        exact hfst
      · rcases ih (List.mem_map.mpr ⟨q, hq, hfst⟩) with hh | hh
        · left
          rcases List.mem_map.mp hh with ⟨q', hq', hf'⟩
          exact List.mem_map.mpr ⟨q', List.mem_cons_of_mem _ hq', hf'⟩
        · right
          exact hh

theorem mem_keysOf_mergeFields {base extra : FieldMap} {k : String}
    (h : k ∈ keysOf (mergeFields base extra)) : k ∈ keysOf base ∨ k ∈ keysOf extra := by
  induction extra generalizing base with
  | nil => exact Or.inl h
  | cons p t ih =>
    rw [mergeFields, List.foldl_cons] at h
    rcases ih (h := h) with hh | hh
    · rcases mem_keysOf_setKey hh with hb | hb
      · exact Or.inl hb
      · right
        rw [keysOf, List.map_cons, hb]
        exact List.mem_cons_self _ _
    · right
      rw [keysOf, List.map_cons]
      exact List.mem_cons_of_mem _ hh

/-! ## Concrete instances used by witnesses -/

/-- A concrete instance configuration. -/
def cfg0 : GlobalConfig :=
  ⟨"https://sandbox.vnpayment.vn", none, "TMN", "SECRET", "2.1.0", "VND", "vn", "pay", "other"⟩

/-- A concrete stand-in for the keyed digest: deterministic and
secret-dependent, which is all the verified properties use. -/
def hmac0 (secret payload : String) : String := secret ++ "#" ++ payload

/-! ## Claims -/

/-- C4: for every queryDr response whose numeric response code is not in
[90, 99], the implementation rebuilds the fixed-order 15-field pipe
string, scrubs every occurrence of the literal substring `undefined`,
signs the scrubbed string, and fails with the
`Wrong checksum from VNPay response` integrity error if and only if the
recomputed signature differs from the supplied `vnp_SecureHash`. -/
theorem queryDr_hard_range_checksum_iff (hmac : String → String → String)
    (lookupQueryDr : Option String → String) (cfg : GlobalConfig) (r : QueryDrResponse)
    (hcode : softRange r.vnp_ResponseCode = false) :
    queryDrHandleResponse hmac lookupQueryDr cfg r = .error "Wrong checksum from VNPay response" ↔
      r.vnp_SecureHash ≠
        some (hmac cfg.secureSecret (scrubUndefined (queryDrChecksumString cfg r))) := by
  simp only [queryDrHandleResponse, hcode, Bool.false_eq_true, if_false]
  by_cases h :
      r.vnp_SecureHash = some (hmac cfg.secureSecret (scrubUndefined (queryDrChecksumString cfg r)))
  · simp [h]
  · simp [h, bne_iff_ne.mpr h]

/-- C4 witness: a response with code `00` and a signature that does not
match the recomputed one makes `queryDr` fail with the integrity
error. -/
theorem queryDr_hard_range_checksum_iff_witness :
    queryDrHandleResponse hmac0 (fun _ => "m") cfg0
        ⟨some "RID", some "querydr", some "00", some "ok", some "TXN", some "100", none, none,
          some "123", none, some "02", none, none, none, some "BADSIG"⟩ =
      .error "Wrong checksum from VNPay response" :=
  (queryDr_hard_range_checksum_iff hmac0 (fun _ => "m") cfg0 _ (by decide)).mpr (by decide)

/-- C5: for every queryDr response whose numeric response code lies in
the inclusive range [90, 99], the result is the response augmented with
a looked-up message, with no signature verification at all (the equation
holds for every value of `vnp_SecureHash`). -/
theorem queryDr_soft_range_skips_verification (hmac : String → String → String)
    (lookupQueryDr : Option String → String) (cfg : GlobalConfig) (r : QueryDrResponse)
    (c : String) (n : Int) (k : Nat) (hc : r.vnp_ResponseCode = some c)
    (hq : jsStrToNumber c = some (n, k))
    (h90 : 90 * 10 ^ k ≤ n) (h99 : n ≤ 99 * 10 ^ k) :
    queryDrHandleResponse hmac lookupQueryDr cfg r =
      .ok { r with vnp_Message := some (lookupQueryDr r.vnp_ResponseCode) } := by
  have hs : softRange r.vnp_ResponseCode = true := by
    rw [hc]
    simp only [softRange, hq]
    simp [h90, h99]
  simp [queryDrHandleResponse, hs]

/-- C5 witness: a response with code `91` and a non-matching signature
still comes back augmented with a message, not an error. -/
theorem queryDr_soft_range_skips_verification_witness :
    queryDrHandleResponse hmac0 (fun _ => "m91") cfg0
        ⟨some "RID", some "querydr", some "91", none, none, none, none, none,
          none, none, none, none, none, none, some "BADSIG"⟩ =
      .ok ⟨some "RID", some "querydr", some "91", some "m91", none, none, none, none,
          none, none, none, none, none, none, some "BADSIG"⟩ :=
  queryDr_soft_range_skips_verification hmac0 (fun _ => "m91") cfg0
    ⟨some "RID", some "querydr", some "91", none, none, none, none, none,
      none, none, none, none, none, none, some "BADSIG"⟩ "91" 91 0
    rfl (by decide) (by decide) (by decide)

/-- C6: for every refund response whose numeric response code is not in
[90, 99], the refund path rebuilds the fixed-order 13-field pipe string
and fails with the same integrity error exactly when the recomputed
signature differs from the supplied `vnp_SecureHash`; unlike queryDr it
signs without scrubbing the literal substring `undefined` (second
conjunct: on an all-absent response the refund pipe string still
contains that literal, so scrubbing would change it). -/
theorem refund_hard_range_checksum_iff :
    (∀ (hmac : String → String → String) (lookupQ lookupR : Option String → String)
        (cfg : GlobalConfig) (r : RefundResponse),
      softRange r.vnp_ResponseCode = false →
        (refundHandleResponse hmac lookupQ lookupR cfg r =
            .error "Wrong checksum from VNPay response" ↔
          r.vnp_SecureHash ≠ some (hmac cfg.secureSecret (refundChecksumString r)))) ∧
    scrubUndefined
        (refundChecksumString
          ⟨none, none, none, none, none, none, none, none, none, none, none, none, none⟩) ≠
      refundChecksumString
        ⟨none, none, none, none, none, none, none, none, none, none, none, none, none⟩ := by
  constructor
  · intro hmac lookupQ lookupR cfg r hcode
    simp only [refundHandleResponse, hcode, Bool.false_eq_true, if_false]
    by_cases h : r.vnp_SecureHash = some (hmac cfg.secureSecret (refundChecksumString r))
    · simp [h]
    · simp [h, bne_iff_ne.mpr h]
  · decide

/-- C6 witness: a refund response with code `00` and a non-matching
signature fails with the integrity error. -/
theorem refund_hard_range_checksum_iff_witness :
    refundHandleResponse hmac0 (fun _ => "mq") (fun _ => "mr") cfg0
        ⟨some "RID", some "00", some "ok", some "TMN", some "TXN", some "100", none, none,
          some "123", some "02", some "00", some "info", some "BADSIG"⟩ =
      .error "Wrong checksum from VNPay response" :=
  (refund_hard_range_checksum_iff.1 hmac0 (fun _ => "mq") (fun _ => "mr") cfg0 _
    (by decide)).mpr (by decide)

/-- C9: the outbound skip test (`buildKeep`, JS `!value || ...`) drops a
field whose value is the number 0 — and its `* 100` scaling is still 0,
hence still dropped — so the field reaches neither the query string nor
the signed canonical string of `buildPaymentUrl`; the inbound skip test
(`verifyKeep`, JS `value === '' || ...`) keeps a 0-valued field, so it
does appear in `verifyReturnUrl`'s canonical pairs: the excluded field
sets differ between the two paths for 0 values. -/
theorem zero_field_build_verify_divergence (m : FieldMap) (k : String) (p : Nat)
    (hnd : (keysOf m).Nodup) (h0 : getKey m k = some (.jnum 0 p))
    (h1 : k ≠ "vnp_SecureHash") (h2 : k ≠ "vnp_SecureHashType") :
    buildKeep (.jnum 0 p) = false ∧
    verifyKeep (.jnum 0 p) = true ∧
    buildKeep (jsMul100 (.jnum 0 p)) = false ∧
    k ∉ keysOf (sortPairs (m.filter (fun q => buildKeep q.2))) ∧
    k ∈ keysOf (verifyCanonPairs m) := by
  refine ⟨by simp [buildKeep, JVal.truthy], by simp [verifyKeep], ?_, ?_, ?_⟩
  · simp only [jsMul100, buildKeep, JVal.truthy, decMul100]
    split <;> simp
  · intro hk
    rcases List.mem_map.mp hk with ⟨q, hq, hfst⟩
    have hq' := (List.perm_insertionSort keyLe (m.filter fun q => buildKeep q.2)).mem_iff.mp hq
    rcases List.mem_filter.mp hq' with ⟨hqm, hkeep⟩
    have hqk : (k, q.2) ∈ m := by
      have : q = (k, q.2) := by
        rw [Prod.ext_iff]
        exact ⟨hfst, rfl⟩
      rw [← this]
      exact hqm
    have := getKey_eq_of_mem_nodup hnd hqk h0
    rw [this] at hkeep
    simp [buildKeep, JVal.truthy] at hkeep
  · have hm : (k, JVal.jnum 0 p) ∈ m := getKey_mem h0
    have hms : (k, JVal.jnum 0 p) ∈ strippedQuery m := by
      rw [strippedQuery, removeKey, removeKey]
      exact List.mem_filter.mpr
        ⟨List.mem_filter.mpr ⟨hm, bne_iff_ne.mpr h1⟩, bne_iff_ne.mpr h2⟩
    have hmf : (k, JVal.jnum 0 p) ∈ (strippedQuery m).filter (fun q => verifyKeep q.2) :=
      List.mem_filter.mpr ⟨hms, by simp [verifyKeep]⟩
    have hmem :=
      (List.perm_insertionSort keyLe
        ((strippedQuery m).filter (fun q => verifyKeep q.2))).symm.mem_iff.mp hmf
    exact List.mem_map.mpr ⟨(k, JVal.jnum 0 p), hmem, rfl⟩

/-- C9 witness. -/
theorem zero_field_build_verify_divergence_witness :
    "vnp_Amount" ∉
      keysOf (sortPairs
        ([("vnp_Amount", JVal.jnum 0 0), ("vnp_TxnRef", JVal.jstr "T")].filter
          (fun q => buildKeep q.2))) ∧
    "vnp_Amount" ∈
      keysOf (verifyCanonPairs [("vnp_Amount", JVal.jnum 0 0), ("vnp_TxnRef", JVal.jstr "T")]) :=
  ⟨(zero_field_build_verify_divergence
      [("vnp_Amount", JVal.jnum 0 0), ("vnp_TxnRef", JVal.jstr "T")] "vnp_Amount" 0
      (by decide) (by decide) (by decide) (by decide)).2.2.2.1,
   (zero_field_build_verify_divergence
      [("vnp_Amount", JVal.jnum 0 0), ("vnp_TxnRef", JVal.jstr "T")] "vnp_Amount" 0
      (by decide) (by decide) (by decide) (by decide)).2.2.2.2⟩

/-- C10: `verifyReturnUrl` (and `verifyIpnCall`, which is a plain
delegation) mutates its argument: after the call the caller's query
object no longer has the `vnp_SecureHash` and `vnp_SecureHashType`
properties, while every other property is unchanged. -/
theorem verify_mutates_caller_query (hmac : String → String → String)
    (lookupMessage : String → String) (cfg : GlobalConfig) (query : FieldMap) :
    getKey (verifyReturnUrl hmac lookupMessage cfg query).2 "vnp_SecureHash" = none ∧
    getKey (verifyReturnUrl hmac lookupMessage cfg query).2 "vnp_SecureHashType" = none ∧
    (∀ k, k ≠ "vnp_SecureHash" → k ≠ "vnp_SecureHashType" →
      getKey (verifyReturnUrl hmac lookupMessage cfg query).2 k = getKey query k) ∧
    verifyIpnCall hmac lookupMessage cfg query = verifyReturnUrl hmac lookupMessage cfg query := by
  have h2 : (verifyReturnUrl hmac lookupMessage cfg query).2 = strippedQuery query := rfl
  refine ⟨?_, ?_, ?_, rfl⟩
  · rw [h2, strippedQuery,
      getKey_removeKey_ne (show "vnp_SecureHash" ≠ "vnp_SecureHashType" by decide),
      getKey_removeKey_self]
  · rw [h2, strippedQuery, getKey_removeKey_self]
  · intro k hk1 hk2
    rw [h2, strippedQuery, getKey_removeKey_ne hk2, getKey_removeKey_ne hk1]

/-- C10 witness. -/
theorem verify_mutates_caller_query_witness :
    getKey (verifyReturnUrl hmac0 (fun _ => "m") cfg0
        [("vnp_TxnRef", JVal.jstr "T"), ("vnp_SecureHash", JVal.jstr "S"),
          ("vnp_SecureHashType", JVal.jstr "SHA512")]).2 "vnp_SecureHash" = none ∧
    getKey (verifyReturnUrl hmac0 (fun _ => "m") cfg0
        [("vnp_TxnRef", JVal.jstr "T"), ("vnp_SecureHash", JVal.jstr "S"),
          ("vnp_SecureHashType", JVal.jstr "SHA512")]).2 "vnp_TxnRef" =
      some (JVal.jstr "T") := by
  refine ⟨(verify_mutates_caller_query hmac0 (fun _ => "m") cfg0 _).1, ?_⟩
  rw [(verify_mutates_caller_query hmac0 (fun _ => "m") cfg0
    [("vnp_TxnRef", JVal.jstr "T"), ("vnp_SecureHash", JVal.jstr "S"),
      ("vnp_SecureHashType", JVal.jstr "SHA512")]).2.2.1 "vnp_TxnRef" (by decide) (by decide)]
  decide

/-- Auxiliary for C7: writing any value into `vnp_SecureHashType` and
deleting that key lead to the same stripped working set. -/
theorem strippedQuery_setKey_hashType (q : FieldMap) (v : JVal) :
    strippedQuery (setKey q "vnp_SecureHashType" v) =
      strippedQuery (removeKey q "vnp_SecureHashType") := by
  rw [strippedQuery, strippedQuery]
  rw [removeKey_comm (setKey q "vnp_SecureHashType" v), removeKey_setKey_self]
  rw [removeKey_comm (removeKey q "vnp_SecureHashType"), removeKey_idem]

/-- Auxiliary for C7: the stripped working set ignores the value stored
under `vnp_SecureHash`. -/
theorem strippedQuery_setKey_hash (q : FieldMap) (v : JVal) :
    strippedQuery (setKey q "vnp_SecureHash" v) = strippedQuery q := by
  rw [strippedQuery, strippedQuery, removeKey_setKey_self]

/-- C7: `verifyReturnUrl` strips both `vnp_SecureHash` and
`vnp_SecureHashType` before canonicalizing and signing.  Consequently
(1) the entire result is independent of the value of
`vnp_SecureHashType` (storing any value is the same as the key being
absent), (2) the recomputed signature is independent of the value of
`vnp_SecureHash`, and (3) the supplied `vnp_SecureHash` influences the
verdict only through the final equality comparison with the recomputed
signature. -/
theorem verify_strips_signature_fields (hmac : String → String → String)
    (lookupMessage : String → String) (cfg : GlobalConfig) (q : FieldMap) :
    (∀ v, verifyReturnUrl hmac lookupMessage cfg (setKey q "vnp_SecureHashType" v) =
        verifyReturnUrl hmac lookupMessage cfg (removeKey q "vnp_SecureHashType")) ∧
    (∀ v w, verifyRecomputedSig hmac cfg (setKey q "vnp_SecureHash" v) =
        verifyRecomputedSig hmac cfg (setKey q "vnp_SecureHash" w)) ∧
    ((verifyReturnUrl hmac lookupMessage cfg q).1.isVerified =
      (getKeyD q "vnp_SecureHash" == JVal.jstr (verifyRecomputedSig hmac cfg q))) := by
  refine ⟨?_, ?_, rfl⟩
  · intro v
    have hsig : getKeyD (setKey q "vnp_SecureHashType" v) "vnp_SecureHash" =
        getKeyD (removeKey q "vnp_SecureHashType") "vnp_SecureHash" := by
      rw [getKeyD, getKeyD,
        getKey_setKey_ne (show "vnp_SecureHash" ≠ "vnp_SecureHashType" by decide),
        getKey_removeKey_ne (show "vnp_SecureHash" ≠ "vnp_SecureHashType" by decide)]
    simp only [verifyReturnUrl, verifyRecomputedSig, verifyCanonical, verifyCanonPairs,
      strippedQuery_setKey_hashType, hsig]
  · intro v w
    rw [verifyRecomputedSig, verifyRecomputedSig, verifyCanonical, verifyCanonical,
      verifyCanonPairs, verifyCanonPairs, strippedQuery_setKey_hash, strippedQuery_setKey_hash]

/-- C3: a mismatching supplied signature makes `verifyReturnUrl` return
normally (the embedding is a total function; the only JS statements on
this path are assignments) with `isVerified = false` and the message
`Wrong checksum` overriding the looked-up one, while the returned value
still carries every field of the query: all fields except the two
deliberately stripped signature fields and the rescaled amount are
returned unchanged, and the amount comes back divided by 100. -/
theorem wrong_checksum_soft_failure (hmac : String → String → String)
    (lookupMessage : String → String) (cfg : GlobalConfig) (query : FieldMap)
    (hmismatch : getKeyD query "vnp_SecureHash" ≠
      JVal.jstr (verifyRecomputedSig hmac cfg query)) :
    (verifyReturnUrl hmac lookupMessage cfg query).1.isVerified = false ∧
    (verifyReturnUrl hmac lookupMessage cfg query).1.message = "Wrong checksum" ∧
    (∀ k, k ≠ "vnp_SecureHash" → k ≠ "vnp_SecureHashType" → k ≠ "vnp_Amount" →
      getKey (verifyReturnUrl hmac lookupMessage cfg query).1.fields k = getKey query k) ∧
    getKey (verifyReturnUrl hmac lookupMessage cfg query).1.fields "vnp_Amount" =
      some (jsDiv100 (getKeyD (strippedQuery query) "vnp_Amount")) := by
  have hb : (getKeyD query "vnp_SecureHash" ==
      JVal.jstr (verifyRecomputedSig hmac cfg query)) = false :=
    beq_eq_false_iff_ne.mpr hmismatch
  refine ⟨hb, ?_, ?_, ?_⟩
  · show (if (getKeyD query "vnp_SecureHash" ==
        JVal.jstr (verifyRecomputedSig hmac cfg query)) = true
      then lookupMessage (respCodeString (getKeyD (strippedQuery query) "vnp_ResponseCode"))
      else "Wrong checksum") = "Wrong checksum"
    rw [hb]
    simp
  · intro k hk1 hk2 hk3
    show getKey (setKey (strippedQuery query) "vnp_Amount"
        (jsDiv100 (getKeyD (strippedQuery query) "vnp_Amount"))) k = getKey query k
    rw [getKey_setKey_ne hk3, strippedQuery, getKey_removeKey_ne hk2, getKey_removeKey_ne hk1]
  · exact getKey_setKey_self _ _ _

/-- C3 witness: a concrete callback whose signature does not match. -/
theorem wrong_checksum_soft_failure_witness :
    (verifyReturnUrl hmac0 (fun _ => "ok") cfg0
        [("vnp_Amount", JVal.jstr "100"), ("vnp_ResponseCode", JVal.jstr "00"),
          ("vnp_SecureHash", JVal.jstr "FORGED")]).1.isVerified = false ∧
    (verifyReturnUrl hmac0 (fun _ => "ok") cfg0
        [("vnp_Amount", JVal.jstr "100"), ("vnp_ResponseCode", JVal.jstr "00"),
          ("vnp_SecureHash", JVal.jstr "FORGED")]).1.message = "Wrong checksum" :=
  ⟨(wrong_checksum_soft_failure hmac0 (fun _ => "ok") cfg0 _ (by decide)).1,
   (wrong_checksum_soft_failure hmac0 (fun _ => "ok") cfg0 _ (by decide)).2.1⟩

/-- Follows the spec's words (§4.1 rule (A)), for refinement comparison:
byte/ASCII ordering of field names — lexicographic comparison of the
code-point sequences, which on ASCII strings is byte ordering. -/
def asciiLe (a b : String) : Prop :=
  a.data.map Char.toNat ≤ b.data.map Char.toNat

instance : DecidableRel asciiLe := fun a b =>
  inferInstanceAs (Decidable (a.data.map Char.toNat ≤ b.data.map Char.toNat))

/-- Follows the spec's words (§4.1 rule (A)), for refinement comparison:
sort the present field names by byte/ASCII ordering. -/
def asciiSortedKeys (ks : List String) : List String :=
  List.insertionSort asciiLe ks

/-- C2 counterexample: the canonicalization orders keys with
`localeCompare`, which is locale-aware: on the field map with keys `B`
and `a` it yields `a` before `B` (case-insensitive primary pass), while
the ASCII-lexicographic sort the claim prescribes yields `B` (0x42)
before `a` (0x61). -/
theorem canonical_order_not_ascii_counterexample :
    keysOf (verifyCanonPairs [("B", JVal.jstr "y"), ("a", JVal.jstr "x")]) = ["a", "B"] ∧
    asciiSortedKeys (keysOf ([("B", JVal.jstr "y"), ("a", JVal.jstr "x")] : FieldMap)) =
      ["B", "a"] ∧
    keysOf (verifyCanonPairs [("B", JVal.jstr "y"), ("a", JVal.jstr "x")]) ≠
      asciiSortedKeys (keysOf ([("B", JVal.jstr "y"), ("a", JVal.jstr "x")] : FieldMap)) := by
  decide

/-- C2 amended: the canonical key sequence is the `localeCompare`-sorted
permutation of the kept entries (locale-aware collation, not raw ASCII);
on the gateway's standard `vnp_`-prefixed field names the collation
order happens to coincide with the ASCII order. -/
theorem canonical_order_is_collation_sort (m : FieldMap) :
    (verifyCanonPairs m).Sorted keyLe ∧
    (verifyCanonPairs m).Perm ((strippedQuery m).filter (fun p => verifyKeep p.2)) ∧
    keysOf (verifyCanonPairs
        [("vnp_TxnRef", JVal.jstr "x"), ("vnp_Amount", JVal.jstr "x"),
          ("vnp_ResponseCode", JVal.jstr "x"), ("vnp_TransactionStatus", JVal.jstr "x"),
          ("vnp_TransactionNo", JVal.jstr "x"), ("vnp_BankCode", JVal.jstr "x"),
          ("vnp_BankTranNo", JVal.jstr "x"), ("vnp_CardType", JVal.jstr "x"),
          ("vnp_PayDate", JVal.jstr "x"), ("vnp_OrderInfo", JVal.jstr "x"),
          ("vnp_TmnCode", JVal.jstr "x")]) =
      asciiSortedKeys (keysOf
        ([("vnp_TxnRef", JVal.jstr "x"), ("vnp_Amount", JVal.jstr "x"),
          ("vnp_ResponseCode", JVal.jstr "x"), ("vnp_TransactionStatus", JVal.jstr "x"),
          ("vnp_TransactionNo", JVal.jstr "x"), ("vnp_BankCode", JVal.jstr "x"),
          ("vnp_BankTranNo", JVal.jstr "x"), ("vnp_CardType", JVal.jstr "x"),
          ("vnp_PayDate", JVal.jstr "x"), ("vnp_OrderInfo", JVal.jstr "x"),
          ("vnp_TmnCode", JVal.jstr "x")] : FieldMap)) :=
  ⟨List.sorted_insertionSort keyLe _, List.perm_insertionSort keyLe _, by decide⟩

set_option maxRecDepth 100000 in
/-- C8 counterexample: `buildPaymentUrl` performs no validation at all:
for a negative amount it neither fails nor withholds the URL — the
returned string is a full payment URL on the configured host carrying a
`vnp_SecureHash` parameter. -/
theorem build_negative_amount_still_returns_url :
    getKey (parseQuery (buildPaymentUrl hmac0 (fun _ => true) "20240101070000" cfg0
        [("vnp_Amount", JVal.jnum (-5) 0), ("vnp_TxnRef", JVal.jstr "T1")]))
      "vnp_SecureHash" ≠ none ∧
    (buildPaymentUrl hmac0 (fun _ => true) "20240101070000" cfg0
        [("vnp_Amount", JVal.jnum (-5) 0), ("vnp_TxnRef", JVal.jstr "T1")]).data.take 51 =
      "https://sandbox.vnpayment.vn/paymentv2/vpcpay.html?".data := by
  decide

/-- C8 amended: `buildPaymentUrl` performs no input validation and never
fails: for every input — in particular one whose merged amount is
negative — it returns a URL on the configured host, and the negative
amount (scaled by 100) is kept in the signed canonical pair list rather
than rejected.  (No `ValidationError` exists anywhere in
`src/vnpay.ts`.) -/
theorem buildPaymentUrl_no_validation (hmac : String → String → String)
    (validDate : JVal → Bool) (now : String) (cfg : GlobalConfig) (data : FieldMap)
    (a : Int) (k : Nat)
    (hamt : getKey (mergeFields (defaultConfigFields cfg) data) "vnp_Amount" =
      some (JVal.jnum a k))
    (hneg : a < 0) :
    (∃ rest, buildPaymentUrl hmac validDate now cfg data =
        resolveUrlString cfg.vnpayHost (cfg.paymentEndpoint.getD PAYMENT_ENDPOINT) ++
          "?" ++ rest) ∧
    ("vnp_Amount", jsMul100 (JVal.jnum a k)) ∈ buildSortedPairs validDate now cfg data := by
  constructor
  · exact ⟨_, rfl⟩
  · have hd1 : getKey (buildDataToBuild validDate now cfg data) "vnp_Amount" =
        some (jsMul100 (JVal.jnum a k)) := by
      rw [buildDataToBuild]
      have hg : getKeyD (mergeFields (defaultConfigFields cfg) data) "vnp_Amount" =
          JVal.jnum a k := by
        rw [getKeyD, hamt]
        rfl
      rw [hg]
      split
      · exact getKey_setKey_self _ _ _
      · rw [getKey_setKey_ne (show "vnp_Amount" ≠ "vnp_CreateDate" by decide),
          getKey_setKey_self]
    have hmem : ("vnp_Amount", jsMul100 (JVal.jnum a k)) ∈ buildDataToBuild validDate now cfg data :=
      getKey_mem hd1
    have hkeep : buildKeep (jsMul100 (JVal.jnum a k)) = true := by
      simp only [jsMul100, buildKeep, JVal.truthy, decMul100]
      split
      · simp
        omega
      · simp
        omega
    rw [buildSortedPairs]
    exact (List.perm_insertionSort keyLe _).symm.mem_iff.mp
      (List.mem_filter.mpr ⟨hmem, hkeep⟩)

/-- C8 amended witness. -/
theorem buildPaymentUrl_no_validation_witness :
    ("vnp_Amount", jsMul100 (JVal.jnum (-5) 0)) ∈
      buildSortedPairs (fun _ => true) "20240101070000" cfg0
        [("vnp_Amount", JVal.jnum (-5) 0), ("vnp_TxnRef", JVal.jstr "T1")] :=
  (buildPaymentUrl_no_validation hmac0 (fun _ => true) "20240101070000" cfg0
    [("vnp_Amount", JVal.jnum (-5) 0), ("vnp_TxnRef", JVal.jstr "T1")] (-5) 0
    (by decide) (by decide)).2

/-! ## Round-trip machinery for C1: values survive serialization -/

theorem natDigitsAux_ne_nil (fuel n : Nat) : natDigitsAux (fuel + 1) n ≠ [] := by
  rw [natDigitsAux]
  split
  · simp
  · simp

theorem jnumToStr_ne_empty (n : Int) (k : Nat) : jnumToStr n k ≠ "" := by
  intro he
  rw [String.ext_iff] at he
  simp only [jnumToStr] at he
  split at he
  · simp only [intToString] at he
    split at he
    · rw [String.data_append] at he
      simp at he
    · exact natDigitsAux_ne_nil _ _ he
  · rw [String.data_append, String.data_append, String.data_append] at he
    simp at he

theorem toStr_ne_empty {v : JVal} (h : v.truthy = true) : v.toStr ≠ "" := by
  cases v with
  | jstr s =>
    simp only [JVal.truthy] at h
    simpa [JVal.toStr] using bne_iff_ne.mp h
  | jnum n k => exact jnumToStr_ne_empty n k
  | jundef => simp [JVal.truthy] at h
  | jnull => simp [JVal.truthy] at h
  | jnan => simp [JVal.truthy] at h

theorem verifyKeep_jstr_toStr {v : JVal} (h : buildKeep v = true) :
    verifyKeep (JVal.jstr v.toStr) = true := by
  have hne := toStr_ne_empty (show v.truthy = true from h)
  simp [verifyKeep, hne]

/-! Characters produced by the form-url encoder never collide with the
structural separators of a query string. -/

theorem char_toNat_lt (c : Char) : c.toNat < 1114112 := by
  rcases c.valid with h | h
  · exact lt_trans h (by norm_num)
  · exact h.2

theorem utf8Bytes_lt_256 {n b : Nat} (hn : n < 1114112) (hb : b ∈ utf8Bytes n) : b < 256 := by
  rw [utf8Bytes] at hb
  split at hb
  · simp at hb
    omega
  · split at hb
    · simp at hb
      rcases hb with h | h <;> omega
    · split at hb
      · simp at hb
        rcases hb with h | h | h <;> omega
      · simp at hb
        rcases hb with h | h | h | h <;> omega

theorem hexDigitChar_ok : ∀ d, d < 16 →
    hexDigitChar d ≠ '&' ∧ hexDigitChar d ≠ '=' ∧ hexDigitChar d ≠ '?' := by decide

theorem byteEscape_ok {b : Nat} {x : Char} (hb : b < 256) (hx : x ∈ byteEscape b) :
    x ≠ '&' ∧ x ≠ '=' ∧ x ≠ '?' := by
  rw [byteEscape] at hx
  simp at hx
  rcases hx with h | h | h
  · subst h
    refine ⟨by decide, by decide, by decide⟩
  · subst h
    exact hexDigitChar_ok (b / 16) (by omega)
  · subst h
    exact hexDigitChar_ok (b % 16) (by omega)

theorem encodeChar_ok {c x : Char} (hx : x ∈ encodeChar c) :
    x ≠ '&' ∧ x ≠ '=' ∧ x ≠ '?' := by
  rw [encodeChar] at hx
  split at hx
  · rename_i hc
    simp at hx
    subst hx
    refine ⟨?_, ?_, ?_⟩ <;> intro he <;> rw [he] at hc <;> exact absurd hc (by decide)
  · split at hx
    · simp at hx
      subst hx
      refine ⟨by decide, by decide, by decide⟩
    · rcases List.mem_flatMap.mp hx with ⟨b, hb, hxb⟩
      exact byteEscape_ok (utf8Bytes_lt_256 (char_toNat_lt c) hb) hxb

theorem urlEncChars_ok {s : String} {x : Char} (hx : x ∈ urlEncChars s) :
    x ≠ '&' ∧ x ≠ '=' ∧ x ≠ '?' := by
  rcases List.mem_flatMap.mp hx with ⟨c, _, hxc⟩
  exact encodeChar_ok hxc

theorem encSeg_ok {p : String × JVal} {x : Char} (hx : x ∈ encSeg p) :
    x ≠ '&' ∧ x ≠ '?' := by
  rw [encSeg] at hx
  rcases List.mem_append.mp hx with h | h
  · exact ⟨(urlEncChars_ok h).1, (urlEncChars_ok h).2.2⟩
  · rcases List.mem_cons.mp h with h | h
    · subst h
      exact ⟨by decide, by decide⟩
    · exact ⟨(urlEncChars_ok h).1, (urlEncChars_ok h).2.2⟩

theorem mem_listIntercalate {sep : Char} {segs : List (List Char)} {x : Char}
    (hx : x ∈ listIntercalate sep segs) : x = sep ∨ ∃ seg ∈ segs, x ∈ seg := by
  induction segs with
  | nil => simp [listIntercalate] at hx
  | cons a tail ih =>
    cases tail with
    | nil =>
      rw [listIntercalate] at hx
      right
      exact ⟨a, by simp, hx⟩
    | cons b tl =>
      rw [listIntercalate] at hx
      rcases List.mem_append.mp hx with h | h
      · right
        exact ⟨a, by simp, h⟩
      · rcases List.mem_cons.mp h with h | h
        · left
          exact h
        · rcases ih h with h | ⟨seg, hs, hxs⟩
          · left
            exact h
          · right
            exact ⟨seg, List.mem_cons_of_mem _ hs, hxs⟩

/-! Percent-decoding inverts the form-url encoder. -/

theorem pdBytes_nil : pdBytes [] = [] := rfl

theorem pdBytes_escape (h l : Char) (r : List Char) :
    pdBytes ('%' :: h :: l :: r) = (16 * hexVal h + hexVal l) :: pdBytes r := by
  simp [pdBytes]

theorem pdBytes_plus (rest : List Char) : pdBytes ('+' :: rest) = 32 :: pdBytes rest := by
  cases rest with
  | nil => simp [pdBytes]
  | cons a tl =>
    cases tl with
    | nil => simp [pdBytes]
    | cons a2 tl2 => simp [pdBytes]

theorem pdBytes_other {c : Char} (h1 : ¬ c = '%') (h2 : ¬ c = '+') (rest : List Char) :
    pdBytes (c :: rest) = utf8Bytes c.toNat ++ pdBytes rest := by
  cases rest with
  | nil => simp [pdBytes, h1, h2]
  | cons a tl =>
    cases tl with
    | nil => simp [pdBytes, h1, h2]
    | cons a2 tl2 => simp [pdBytes, h1, h2]

theorem pdBytes_byteEscape {b : Nat} (hb : b < 256) (rest : List Char) :
    pdBytes (byteEscape b ++ rest) = b :: pdBytes rest := by
  rw [byteEscape]
  simp only [List.cons_append, List.nil_append]
  rw [pdBytes_escape]
  have hd : ∀ d, d < 16 → hexVal (hexDigitChar d) = d := by decide
  rw [hd _ (show b / 16 < 16 by omega), hd _ (show b % 16 < 16 by omega)]
  congr 1
  omega

theorem pdBytes_utf8Escapes {n : Nat} (hn : n < 1114112) (rest : List Char) :
    pdBytes ((utf8Bytes n).flatMap byteEscape ++ rest) = utf8Bytes n ++ pdBytes rest := by
  have hall : ∀ b ∈ utf8Bytes n, b < 256 := fun b hb => utf8Bytes_lt_256 hn hb
  revert hall
  generalize utf8Bytes n = bs
  intro hall
  induction bs with
  | nil => simp
  | cons b bs ih =>
    rw [List.flatMap_cons, List.append_assoc,
      pdBytes_byteEscape (hall b (List.mem_cons_self _ _)),
      ih (fun x hx => hall x (List.mem_cons_of_mem _ hx))]
    rfl

theorem pdBytes_encodeChar (c : Char) (rest : List Char) :
    pdBytes (encodeChar c ++ rest) = utf8Bytes c.toNat ++ pdBytes rest := by
  rw [encodeChar]
  split
  · rename_i hc
    have h1 : ¬ c = '%' := by
      intro he
      rw [he] at hc
      exact absurd hc (by decide)
    have h2 : ¬ c = '+' := by
      intro he
      rw [he] at hc
      exact absurd hc (by decide)
    rw [List.cons_append, List.nil_append, pdBytes_other h1 h2]
  · split
    · rename_i hsp
      rw [hsp, List.cons_append, List.nil_append, pdBytes_plus]
      rfl
    · exact pdBytes_utf8Escapes (char_toNat_lt c) rest

theorem utf8Decode_nil : utf8Decode [] = [] := rfl

theorem utf8Decode_utf8Bytes {n : Nat} (hn : Nat.isValidChar n) (rest : List Nat) :
    utf8Decode (utf8Bytes n ++ rest) = Char.ofNat n :: utf8Decode rest := by
  have hn' : n < 1114112 := by
    rcases hn with h | h
    · omega
    · omega
  rw [utf8Decode, utf8Bytes]
  by_cases h1 : n < 128
  · rw [if_pos h1, List.cons_append, List.nil_append, utf8DecodeSt, if_pos rfl, if_pos h1]
    rfl
  · rw [if_neg h1]
    by_cases h2 : n < 2048
    · rw [if_pos h2]
      simp only [List.cons_append, List.nil_append]
      rw [utf8DecodeSt, if_pos rfl, if_neg (by omega), if_pos (by omega)]
      rw [utf8DecodeSt, if_neg (by omega), if_pos rfl]
      have : (192 + n / 64 - 192) * 64 + (128 + n % 64 - 128) = n := by omega
      rw [this]
      rfl
    · rw [if_neg h2]
      by_cases h3 : n < 65536
      · rw [if_pos h3]
        simp only [List.cons_append, List.nil_append]
        rw [utf8DecodeSt, if_pos rfl, if_neg (by omega), if_neg (by omega), if_pos (by omega)]
        rw [utf8DecodeSt, if_neg (by omega), if_neg (by omega)]
        rw [utf8DecodeSt, if_neg (by omega), if_pos rfl]
        have : ((224 + n / 4096 - 224) * 64 + (128 + n / 64 % 64 - 128)) * 64 +
            (128 + n % 64 - 128) = n := by omega
        rw [this]
        rfl
      · rw [if_neg h3]
        simp only [List.cons_append, List.nil_append]
        rw [utf8DecodeSt, if_pos rfl, if_neg (by omega), if_neg (by omega), if_neg (by omega)]
        rw [utf8DecodeSt, if_neg (by omega), if_neg (by omega)]
        rw [utf8DecodeSt, if_neg (by omega), if_neg (by omega)]
        rw [utf8DecodeSt, if_neg (by omega), if_pos rfl]
        have : (((240 + n / 262144 - 240) * 64 + (128 + n / 4096 % 64 - 128)) * 64 +
            (128 + n / 64 % 64 - 128)) * 64 + (128 + n % 64 - 128) = n := by omega
        rw [this]
        rfl

theorem utf8Decode_char (c : Char) (rest : List Nat) :
    utf8Decode (utf8Bytes c.toNat ++ rest) = c :: utf8Decode rest := by
  have hv : Nat.isValidChar c.toNat := c.valid
  rw [utf8Decode_utf8Bytes hv, Char.ofNat_toNat]

theorem pdBytes_urlEncChars (cs : List Char) (rest : List Char) :
    pdBytes (cs.flatMap encodeChar ++ rest) =
      cs.flatMap (fun c => utf8Bytes c.toNat) ++ pdBytes rest := by
  induction cs with
  | nil => simp
  | cons c cs ih =>
    rw [List.flatMap_cons, List.flatMap_cons, List.append_assoc, pdBytes_encodeChar, ih,
      List.append_assoc]

theorem utf8Decode_flat (cs : List Char) (rest : List Nat) :
    utf8Decode (cs.flatMap (fun c => utf8Bytes c.toNat) ++ rest) = cs ++ utf8Decode rest := by
  induction cs with
  | nil => simp
  | cons c cs ih =>
    rw [List.flatMap_cons, List.append_assoc, utf8Decode_char, ih]
    rfl

/-- Decoding inverts encoding: the key correctness fact behind the
build/verify round trip. -/
theorem percentDecodeChars_urlEncChars (s : String) :
    percentDecodeChars (urlEncChars s) = s := by
  rw [percentDecodeChars, urlEncChars]
  have h1 : pdBytes (s.data.flatMap encodeChar) =
      s.data.flatMap (fun c => utf8Bytes c.toNat) := by
    have := pdBytes_urlEncChars s.data []
    simpa [pdBytes_nil] using this
  rw [h1]
  have h2 : utf8Decode (s.data.flatMap (fun c => utf8Bytes c.toNat)) = s.data := by
    have := utf8Decode_flat s.data []
    simpa [utf8Decode_nil] using this
  rw [h2]

/-! Splitting on separators inverts joining with them. -/

theorem splitOnCharList_of_not_mem {sep : Char} {seg : List Char} (h : sep ∉ seg) :
    splitOnCharList sep seg = [seg] := by
  induction seg with
  | nil => rfl
  | cons c cs ih =>
    have hc : ¬ c = sep := by
      intro he
      exact h (by rw [← he]; exact List.mem_cons_self _ _)
    have hcs : sep ∉ cs := fun hm => h (List.mem_cons_of_mem _ hm)
    rw [splitOnCharList, if_neg hc, ih hcs]

theorem splitOnCharList_append {sep : Char} {seg : List Char} (h : sep ∉ seg)
    (rest : List Char) :
    splitOnCharList sep (seg ++ sep :: rest) = seg :: splitOnCharList sep rest := by
  induction seg with
  | nil =>
    rw [List.nil_append, splitOnCharList, if_pos rfl]
  | cons c cs ih =>
    have hc : ¬ c = sep := by
      intro he
      exact h (by rw [← he]; exact List.mem_cons_self _ _)
    have hcs : sep ∉ cs := fun hm => h (List.mem_cons_of_mem _ hm)
    rw [List.cons_append, splitOnCharList, if_neg hc, ih hcs]

theorem splitOnCharList_intercalate {sep : Char} :
    ∀ {segs : List (List Char)}, segs ≠ [] → (∀ seg ∈ segs, sep ∉ seg) →
      splitOnCharList sep (listIntercalate sep segs) = segs := by
  intro segs
  induction segs with
  | nil => intro h _; exact absurd rfl h
  | cons a tail ih =>
    intro _ hall
    cases tail with
    | nil =>
      rw [listIntercalate]
      exact splitOnCharList_of_not_mem (hall a (List.mem_cons_self _ _))
    | cons b tl =>
      rw [listIntercalate,
        splitOnCharList_append (hall a (List.mem_cons_self _ _)),
        ih (by simp) (fun seg hs => hall seg (List.mem_cons_of_mem _ hs))]

theorem splitFirst_append {sep : Char} {k : List Char} (h : sep ∉ k) (v : List Char) :
    splitFirst sep (k ++ sep :: v) = (k, v) := by
  induction k with
  | nil => rw [List.nil_append, splitFirst, if_pos rfl]
  | cons c cs ih =>
    have hc : ¬ c = sep := by
      intro he
      exact h (by rw [← he]; exact List.mem_cons_self _ _)
    have hcs : sep ∉ cs := fun hm => h (List.mem_cons_of_mem _ hm)
    rw [List.cons_append, splitFirst, if_neg hc, ih hcs]

/-! Keys of the built query. -/

theorem getKey_append_of_not_mem {l1 : FieldMap} {k : String} (h : k ∉ keysOf l1)
    (l2 : FieldMap) : getKey (l1 ++ l2) k = getKey l2 k := by
  induction l1 with
  | nil => rfl
  | cons p t ih =>
    have hp : p.1 ≠ k := fun he => h (List.mem_map.mpr ⟨p, List.mem_cons_self _ _, he⟩)
    rw [List.cons_append, getKey, if_neg hp]
    exact ih fun hm => by
      rcases List.mem_map.mp hm with ⟨q, hq, hf⟩
      exact h (List.mem_map.mpr ⟨q, List.mem_cons_of_mem _ hq, hf⟩)

theorem mem_keysOf_buildDataToBuild {validDate : JVal → Bool} {now : String}
    {cfg : GlobalConfig} {data : FieldMap} {k : String}
    (h : k ∈ keysOf (buildDataToBuild validDate now cfg data)) :
    k ∈ keysOf (mergeFields (defaultConfigFields cfg) data) ∨
      k = "vnp_Amount" ∨ k = "vnp_CreateDate" := by
  rw [buildDataToBuild] at h
  split at h
  · rcases mem_keysOf_setKey h with h | h
    · exact Or.inl h
    · exact Or.inr (Or.inl h)
  · rcases mem_keysOf_setKey h with h | h
    · rcases mem_keysOf_setKey h with h | h
      · exact Or.inl h
      · exact Or.inr (Or.inl h)
    · exact Or.inr (Or.inr h)

theorem mem_keysOf_buildSortedPairs {validDate : JVal → Bool} {now : String}
    {cfg : GlobalConfig} {data : FieldMap} {k : String}
    (h : k ∈ keysOf (buildSortedPairs validDate now cfg data)) :
    k ∈ keysOf (buildDataToBuild validDate now cfg data) := by
  rw [buildSortedPairs, sortPairs] at h
  rcases List.mem_map.mp h with ⟨p, hp, hf⟩
  have hpf := (List.perm_insertionSort keyLe _).mem_iff.mp hp
  exact List.mem_map.mpr ⟨p, (List.mem_filter.mp hpf).1, hf⟩

theorem keysOf_map_jstr (L : FieldMap) :
    keysOf (L.map (fun p => (p.1, JVal.jstr p.2.toStr))) = keysOf L := by
  rw [keysOf, keysOf, List.map_map]
  rfl

/-- Parsing the query string of the URL built by `buildPaymentUrl`
recovers the sorted kept pairs (every value as its string rendering)
followed by the appended signature pair. -/
theorem parseQuery_buildPaymentUrl (hmac : String → String → String)
    (validDate : JVal → Bool) (now : String) (cfg : GlobalConfig) (data : FieldMap)
    (hq : '?' ∉ (resolveUrlString cfg.vnpayHost (cfg.paymentEndpoint.getD PAYMENT_ENDPOINT)).data) :
    parseQuery (buildPaymentUrl hmac validDate now cfg data) =
      (buildSortedPairs validDate now cfg data).map (fun p => (p.1, JVal.jstr p.2.toStr)) ++
        [("vnp_SecureHash",
          JVal.jstr (hmac cfg.secureSecret (buildCanonical validDate now cfg data)))] := by
  have hurl : (buildPaymentUrl hmac validDate now cfg data).data =
      (resolveUrlString cfg.vnpayHost (cfg.paymentEndpoint.getD PAYMENT_ENDPOINT)).data ++
        '?' :: listIntercalate '&'
          ((buildSortedPairs validDate now cfg data ++
            [("vnp_SecureHash",
              JVal.jstr (hmac cfg.secureSecret (buildCanonical validDate now cfg data)))]).map
            encSeg) := by
    rw [buildPaymentUrl, String.data_append, String.data_append, List.append_assoc]
    rfl
  have hbody : ∀ x ∈ listIntercalate '&'
      ((buildSortedPairs validDate now cfg data ++
        [("vnp_SecureHash",
          JVal.jstr (hmac cfg.secureSecret (buildCanonical validDate now cfg data)))]).map
        encSeg), x ≠ '?' ∧ x ≠ '&' ∨ x = '&' := by
    intro x hx
    rcases mem_listIntercalate hx with h | ⟨seg, hseg, hxs⟩
    · exact Or.inr h
    · rcases List.mem_map.mp hseg with ⟨p, _, hf⟩
      rw [← hf] at hxs
      exact Or.inl ⟨(encSeg_ok hxs).2, (encSeg_ok hxs).1⟩
  have hbodyq : '?' ∉ listIntercalate '&'
      ((buildSortedPairs validDate now cfg data ++
        [("vnp_SecureHash",
          JVal.jstr (hmac cfg.secureSecret (buildCanonical validDate now cfg data)))]).map
        encSeg) := by
    intro hm
    rcases hbody _ hm with ⟨h1, _⟩ | h
    · exact h1 rfl
    · exact absurd h (by decide)
  rw [parseQuery, hurl, splitOnCharList_append hq, splitOnCharList_of_not_mem hbodyq]
  have hlast : ∀ (a b : List Char), ([a, b].getLastD []) = b := by
    intro a b
    rfl
  rw [hlast]
  have hsegs : splitOnCharList '&'
      (listIntercalate '&'
        ((buildSortedPairs validDate now cfg data ++
          [("vnp_SecureHash",
            JVal.jstr (hmac cfg.secureSecret (buildCanonical validDate now cfg data)))]).map
          encSeg)) =
      (buildSortedPairs validDate now cfg data ++
        [("vnp_SecureHash",
          JVal.jstr (hmac cfg.secureSecret (buildCanonical validDate now cfg data)))]).map
        encSeg := by
    apply splitOnCharList_intercalate
    · simp
    · intro seg hseg hm
      rcases List.mem_map.mp hseg with ⟨p, _, hf⟩
      rw [← hf] at hm
      exact (encSeg_ok hm).1 rfl
  rw [hsegs, List.map_map]
  have hone : ∀ p : String × JVal,
      (fun seg => (percentDecodeChars (splitFirst '=' seg).1,
        JVal.jstr (percentDecodeChars (splitFirst '=' seg).2))) (encSeg p) =
      (p.1, JVal.jstr p.2.toStr) := by
    intro p
    have hek : '=' ∉ urlEncChars p.1 := fun hm => (urlEncChars_ok hm).2.1 rfl
    show (percentDecodeChars (splitFirst '=' (encSeg p)).1,
        JVal.jstr (percentDecodeChars (splitFirst '=' (encSeg p)).2)) = _
    rw [encSeg, splitFirst_append hek]
    rw [show (urlEncChars p.1, urlEncChars p.2.toStr).1 = urlEncChars p.1 from rfl]
    rw [show (urlEncChars p.1, urlEncChars p.2.toStr).2 = urlEncChars p.2.toStr from rfl]
    rw [percentDecodeChars_urlEncChars, percentDecodeChars_urlEncChars]
  have hfe : ((fun seg => (percentDecodeChars (splitFirst '=' seg).1,
      JVal.jstr (percentDecodeChars (splitFirst '=' seg).2))) ∘ encSeg) =
      (fun p : String × JVal => (p.1, JVal.jstr p.2.toStr)) :=
    funext fun p => hone p
  rw [hfe, List.map_append]
  rfl

/-- C1: the build/verify round trip: parsing the query string of the URL
returned by `buildPaymentUrl` and passing the resulting field map to
`verifyReturnUrl` (same config, unmodified secret) verifies
successfully.  The hypotheses state validity of the parameter set: the
caller does not supply the reserved signature fields, and the configured
host/endpoint contain no `?`. -/
theorem build_then_verify_isVerified (hmac : String → String → String)
    (lookupMessage : String → String) (validDate : JVal → Bool) (now : String)
    (cfg : GlobalConfig) (data : FieldMap)
    (hq : '?' ∉ (resolveUrlString cfg.vnpayHost (cfg.paymentEndpoint.getD PAYMENT_ENDPOINT)).data)
    (hsh : "vnp_SecureHash" ∉ keysOf data)
    (hsht : "vnp_SecureHashType" ∉ keysOf data) :
    (verifyReturnUrl hmac lookupMessage cfg
        (parseQuery (buildPaymentUrl hmac validDate now cfg data))).1.isVerified = true := by
  rw [parseQuery_buildPaymentUrl hmac validDate now cfg data hq]
  have hnotdefault : ∀ k, k ∈ keysOf (defaultConfigFields cfg) →
      k = "vnp_TmnCode" ∨ k = "vnp_Version" ∨ k = "vnp_CurrCode" ∨ k = "vnp_Locale" ∨
        k = "vnp_Command" ∨ k = "vnp_OrderType" := by
    intro k hk
    simpa [defaultConfigFields, keysOf] using hk
  have hkeyL : ∀ k, k ∈ keysOf (buildSortedPairs validDate now cfg data) →
      k ≠ "vnp_SecureHash" ∧ k ≠ "vnp_SecureHashType" := by
    intro k hk
    rcases mem_keysOf_buildDataToBuild (mem_keysOf_buildSortedPairs hk) with h | h | h
    · rcases mem_keysOf_mergeFields h with h | h
      · rcases hnotdefault k h with h | h | h | h | h | h <;> rw [h] <;> exact ⟨by decide, by decide⟩
      · constructor <;> intro he <;> rw [he] at h
        · exact hsh h
        · exact hsht h
    · rw [h]
      exact ⟨by decide, by decide⟩
    · rw [h]
      exact ⟨by decide, by decide⟩
  have hshL : "vnp_SecureHash" ∉
      keysOf ((buildSortedPairs validDate now cfg data).map
        (fun p => (p.1, JVal.jstr p.2.toStr))) := by
    rw [keysOf_map_jstr]
    intro hm
    exact (hkeyL _ hm).1 rfl
  have hshtL : "vnp_SecureHashType" ∉
      keysOf ((buildSortedPairs validDate now cfg data).map
        (fun p => (p.1, JVal.jstr p.2.toStr))) := by
    rw [keysOf_map_jstr]
    intro hm
    exact (hkeyL _ hm).2 rfl
  have hstrip : strippedQuery
      ((buildSortedPairs validDate now cfg data).map (fun p => (p.1, JVal.jstr p.2.toStr)) ++
        [("vnp_SecureHash",
          JVal.jstr (hmac cfg.secureSecret (buildCanonical validDate now cfg data)))]) =
      (buildSortedPairs validDate now cfg data).map (fun p => (p.1, JVal.jstr p.2.toStr)) := by
    rw [strippedQuery]
    have h1 : removeKey
        ((buildSortedPairs validDate now cfg data).map (fun p => (p.1, JVal.jstr p.2.toStr)) ++
          [("vnp_SecureHash",
            JVal.jstr (hmac cfg.secureSecret (buildCanonical validDate now cfg data)))])
        "vnp_SecureHash" =
        (buildSortedPairs validDate now cfg data).map (fun p => (p.1, JVal.jstr p.2.toStr)) := by
      rw [removeKey, List.filter_append]
      rw [show List.filter (fun p => p.1 != "vnp_SecureHash")
          ((buildSortedPairs validDate now cfg data).map (fun p => (p.1, JVal.jstr p.2.toStr))) =
          (buildSortedPairs validDate now cfg data).map (fun p => (p.1, JVal.jstr p.2.toStr)) from
        removeKey_eq_self_of_not_mem hshL]
      simp
    rw [h1]
    exact removeKey_eq_self_of_not_mem hshtL
  have hsup : getKeyD
      ((buildSortedPairs validDate now cfg data).map (fun p => (p.1, JVal.jstr p.2.toStr)) ++
        [("vnp_SecureHash",
          JVal.jstr (hmac cfg.secureSecret (buildCanonical validDate now cfg data)))])
      "vnp_SecureHash" =
      JVal.jstr (hmac cfg.secureSecret (buildCanonical validDate now cfg data)) := by
    rw [getKeyD, getKey_append_of_not_mem hshL]
    rfl
  have hsorted : List.Sorted keyLe
      ((buildSortedPairs validDate now cfg data).map (fun p => (p.1, JVal.jstr p.2.toStr))) := by
    have hs : List.Sorted keyLe (buildSortedPairs validDate now cfg data) :=
      List.sorted_insertionSort keyLe _
    exact hs.map _ (fun a b hab => hab)
  have hfilter : ((buildSortedPairs validDate now cfg data).map
      (fun p => (p.1, JVal.jstr p.2.toStr))).filter (fun p => verifyKeep p.2) =
      (buildSortedPairs validDate now cfg data).map (fun p => (p.1, JVal.jstr p.2.toStr)) := by
    apply List.filter_eq_self.mpr
    intro p hp
    rcases List.mem_map.mp hp with ⟨q, hq, hf⟩
    rw [buildSortedPairs, sortPairs] at hq
    have hq2 : buildKeep q.2 = true :=
      (List.mem_filter.mp ((List.perm_insertionSort keyLe _).mem_iff.mp hq)).2
    rw [← hf]
    exact verifyKeep_jstr_toStr hq2
  have hcanonpairs : verifyCanonPairs
      ((buildSortedPairs validDate now cfg data).map (fun p => (p.1, JVal.jstr p.2.toStr)) ++
        [("vnp_SecureHash",
          JVal.jstr (hmac cfg.secureSecret (buildCanonical validDate now cfg data)))]) =
      (buildSortedPairs validDate now cfg data).map (fun p => (p.1, JVal.jstr p.2.toStr)) := by
    rw [verifyCanonPairs, hstrip, hfilter, sortPairs]
    exact List.Sorted.insertionSort_eq hsorted
  have hcanon : verifyCanonical
      ((buildSortedPairs validDate now cfg data).map (fun p => (p.1, JVal.jstr p.2.toStr)) ++
        [("vnp_SecureHash",
          JVal.jstr (hmac cfg.secureSecret (buildCanonical validDate now cfg data)))]) =
      buildCanonical validDate now cfg data := by
    rw [verifyCanonical, hcanonpairs, buildCanonical, List.map_map]
    rfl
  have hfin : (verifyReturnUrl hmac lookupMessage cfg
      ((buildSortedPairs validDate now cfg data).map (fun p => (p.1, JVal.jstr p.2.toStr)) ++
        [("vnp_SecureHash",
          JVal.jstr (hmac cfg.secureSecret (buildCanonical validDate now cfg data)))])).1.isVerified =
      (getKeyD
        ((buildSortedPairs validDate now cfg data).map (fun p => (p.1, JVal.jstr p.2.toStr)) ++
          [("vnp_SecureHash",
            JVal.jstr (hmac cfg.secureSecret (buildCanonical validDate now cfg data)))])
        "vnp_SecureHash" ==
        JVal.jstr (verifyRecomputedSig hmac cfg
          ((buildSortedPairs validDate now cfg data).map (fun p => (p.1, JVal.jstr p.2.toStr)) ++
            [("vnp_SecureHash",
              JVal.jstr (hmac cfg.secureSecret (buildCanonical validDate now cfg data)))]))) :=
    rfl
  rw [hfin, hsup, verifyRecomputedSig, hcanon]
  exact beq_self_eq_true _

/-- C1 witness: a concrete parameter set with a valid create date on the
sandbox configuration round-trips to `isVerified = true`. -/
theorem build_then_verify_isVerified_witness :
    (verifyReturnUrl hmac0 (fun _ => "msg") cfg0
        (parseQuery (buildPaymentUrl hmac0 (fun _ => true) "20240101070000" cfg0
          [("vnp_Amount", JVal.jnum 100000 0), ("vnp_TxnRef", JVal.jstr "12345678"),
            ("vnp_OrderInfo", JVal.jstr "Thanh toan 12345678"),
            ("vnp_IpAddr", JVal.jstr "192.168.0.1")]))).1.isVerified = true :=
  build_then_verify_isVerified hmac0 (fun _ => "msg") (fun _ => true) "20240101070000" cfg0
    [("vnp_Amount", JVal.jnum 100000 0), ("vnp_TxnRef", JVal.jstr "12345678"),
      ("vnp_OrderInfo", JVal.jstr "Thanh toan 12345678"),
      ("vnp_IpAddr", JVal.jstr "192.168.0.1")]
    (by decide) (by decide) (by decide)

end Vnpay
